import Mathlib

/-!
# Verification of clap-sort against its specification

Shallow embedding of the clap-sort validator (src/src/lib.rs): the runtime
command/argument model seen through the accessors the validator reads, the
ordering comparator, the argument classifier, the fail-fast traversals
`assert_sorted` / `is_sorted`, and — modelled from the spec, since the
static-mode extractor and the collect-all driver are not under src/ — the
collect-all policy and the static-mode name derivation.

Rust panics and `Result` are both modelled as `Except String Unit`: the
`error` branch carries the panic / `Err` message.
-/

/-- One declared argument, as seen through the accessors the validator reads
(src/src/lib.rs:142-150, 239-244): `get_id`, `is_positional`, `get_short`,
`get_long`.  The four accessors are modelled as independent fields: the
validator treats them as opaque. -/
structure ArgSpec where
  id : String
  positional : Bool
  short : Option Char
  long : Option String
deriving DecidableEq, Repr

/-- A command node: its name (`get_name`), its own non-inherited arguments in
declaration order (`get_arguments`), and its subcommands in declaration order
(`get_subcommands`). -/
inductive Command : Type where
  | mk (name : String) (args : List ArgSpec) (subs : List Command)

/-- Models `clap::Command::get_name`. -/
def Command.name : Command → String
  | .mk n _ _ => n

/-- Models `clap::Command::get_arguments` (own, non-inherited arguments). -/
def Command.args : Command → List ArgSpec
  | .mk _ a _ => a

/-- Models `clap::Command::get_subcommands`. -/
def Command.subs : Command → List Command
  | .mk _ _ s => s

/-- Stable insertion of one element in front of the first element it does not
compare greater than; helper for `sortBy`. -/
def insertBy (cmp : α → α → Ordering) (x : α) : List α → List α
  | [] => [x]
  | y :: ys => if cmp x y = Ordering.gt then y :: insertBy cmp x ys else x :: y :: ys

/-- Stable insertion sort by a comparator.  Models Rust's `Vec::sort` /
`sort_by` / `sort_unstable` as used in src/src/lib.rs (lines 51, 104,
160-176, 184-201, 221): Rust's sorts are driven by a total (pre)order, and
for such a comparator every stable sort returns the same list; the only
unstable call, `sort_unstable` on `&str` keys (line 221), is insensitive to
the order of equal elements because equal `&str` values are identical. -/
def sortBy (cmp : α → α → Ordering) : List α → List α
  | [] => []
  | x :: xs => insertBy cmp x (sortBy cmp xs)

/-- The short-flag comparator passed to `sort_by` at src/src/lib.rs:160-176
(and duplicated, on whole arguments, at lines 184-201): case-insensitive
primary ordering via `to_ascii_lowercase` (Lean's `Char.toLower` is exactly
Rust's `to_ascii_lowercase`: it maps `A`-`Z` to `a`-`z` and leaves every
other character unchanged), with lowercase-before-uppercase on a primary
tie.  Rust's `char::is_lowercase` / `is_uppercase` are Unicode predicates
and Lean's `Char.isLower` / `Char.isUpper` are their ASCII restrictions,
but the tie branch is only reached when `to_ascii_lowercase` agrees on the
two characters, which forces them to be equal (where both predicate pairs
make both conjunctions false) or an ASCII letter pair (where the predicate
pairs agree), so this definition is extensionally the Rust comparator. -/
def shortCmp (a b : Char) : Ordering :=
  let aLower := a.toLower
  let bLower := b.toLower
  match compare aLower bLower with
  | Ordering.eq =>
    if a.isLower && b.isUpper then Ordering.lt
    else if a.isUpper && b.isLower then Ordering.gt
    else Ordering.eq
  | other => other

/-- Models `Vec::join(" ")` on the accumulated command path. -/
def joinSpace (path : List String) : String := String.intercalate " " path

/-- Models Rust's `Debug` escaping of one character inside a quoted string
(`char::escape_debug` as used by `{:?}` on strings): the named escapes and
the quote and backslash; printable characters — including non-ASCII — are
kept as-is.  Other control characters (which Rust would render as
`\u{...}`) do not occur in any name handled here and are kept as-is. -/
def dbgEscapeChar (c : Char) : String :=
  if c = '\t' then "\\t"
  else if c = '\r' then "\\r"
  else if c = '\n' then "\\n"
  else if c = '\\' then "\\\\"
  else if c = '"' then "\\\""
  else String.singleton c

/-- Models Rust's `Debug` formatting of a string: quotes plus escaping. -/
def dbgStr (s : String) : String :=
  "\"" ++ String.join (s.data.map dbgEscapeChar) ++ "\""

/-- Models Rust's `Debug` formatting (`{:?}`) of a `Vec` of strings:
`["a", "b"]`. -/
def dbgList (l : List String) : String :=
  "[" ++ String.intercalate ", " (l.map dbgStr) ++ "]"

/-- The positional group: `arg.is_positional()` (src/src/lib.rs:143-144).
The source loop pushes each argument into the first matching group; the
three groups are therefore the three order-preserving filters below. -/
def positionalOf (args : List ArgSpec) : List ArgSpec :=
  args.filter fun a => a.positional

/-- The short-flag group: not positional and `get_short().is_some()`
(src/src/lib.rs:145-146). -/
def withShortOf (args : List ArgSpec) : List ArgSpec :=
  args.filter fun a => !a.positional && a.short.isSome

/-- The long-only group: not positional, no short, `get_long().is_some()`
(src/src/lib.rs:147-148). -/
def longOnlyOf (args : List ArgSpec) : List ArgSpec :=
  args.filter fun a => !a.positional && !a.short.isSome && a.long.isSome

/-- The arguments matching none of the three groups — the silent fall-through
of the classifier loop at src/src/lib.rs:142-150. -/
def unclassifiedOf (args : List ArgSpec) : List ArgSpec :=
  args.filter fun a => !a.positional && !a.short.isSome && !a.long.isSome

/-- `with_short_shorts` (src/src/lib.rs:155-158): the short characters of the
short-flag group in declaration order. -/
def shortCharsOf (args : List ArgSpec) : List Char :=
  (withShortOf args).filterMap ArgSpec.short

/-- `long_only_longs` (src/src/lib.rs:216-219): the long names of the
long-only group in declaration order. -/
def longNamesOf (args : List ArgSpec) : List String :=
  (longOnlyOf args).filterMap ArgSpec.long

/-- `expected_order` (src/src/lib.rs:241-244): ids of the positional group,
then the short-flag group, then the long-only group. -/
def expectedIdsOf (args : List ArgSpec) : List String :=
  (positionalOf args).map ArgSpec.id ++ (withShortOf args).map ArgSpec.id
    ++ (longOnlyOf args).map ArgSpec.id

/-- Models `.get_short().unwrap()` (src/src/lib.rs:181, 185-186, 204); total
because every caller applies it to short-flag-group members, which all have
a short. -/
def unwrapShort (a : ArgSpec) : Char := a.short.getD 'A'

/-- The short-flag violation message built at src/src/lib.rs:178-212:
`-x`-rendered actual order versus the stable re-sort of the same arguments
by the same comparator. -/
def shortFlagsMsg (path : List String) (withShort : List ArgSpec) : String :=
  let current := withShort.map fun a => "-" ++ (unwrapShort a).toString
  let sortedArgs := sortBy (fun a b => shortCmp (unwrapShort a) (unwrapShort b)) withShort
  let expected := sortedArgs.map fun a => "-" ++ (unwrapShort a).toString
  "Flags with short options in '" ++ joinSpace path ++ "' are not sorted!\nActual: "
    ++ dbgList current ++ "\nExpected: " ++ dbgList expected

/-- The long-only violation message built at src/src/lib.rs:223-235. -/
def longFlagsMsg (path : List String) (longs sortedLongs : List String) : String :=
  "Long-only flags in '" ++ joinSpace path ++ "' are not sorted!\nActual: "
    ++ dbgList (longs.map fun l => "--" ++ l) ++ "\nExpected: "
    ++ dbgList (sortedLongs.map fun l => "--" ++ l)

/-- The group-order violation message built at src/src/lib.rs:246-252. -/
def groupOrderMsg (path : List String) (argIds expectedIds : List String) : String :=
  "Arguments in '" ++ joinSpace path
    ++ "' are not in correct group order!\nExpected: [positional, short flags, long-only flags]\nActual: "
    ++ dbgList argIds ++ "\nExpected: " ++ dbgList expectedIds

/-- `is_arguments_sorted_with_path` (src/src/lib.rs:135-256): classify the
arguments, then check in order — short-flag group sorted by `shortCmp`,
long-only group sorted alphabetically (Lean's `String` order is
codepoint-lexicographic, which coincides with Rust's byte-wise `&str` order
because UTF-8 is order-preserving), full id list equal to the
positional/short/long concatenation — returning the first failure. -/
def is_arguments_sorted_with_path (args : List ArgSpec) (path : List String) :
    Except String Unit :=
  let with_short_shorts := shortCharsOf args
  let sorted_shorts := sortBy shortCmp with_short_shorts
  if with_short_shorts ≠ sorted_shorts then
    Except.error (shortFlagsMsg path (withShortOf args))
  else
    let long_only_longs := longNamesOf args
    let sorted_longs := sortBy compare long_only_longs
    if long_only_longs ≠ sorted_longs then
      Except.error (longFlagsMsg path long_only_longs sorted_longs)
    else
      let arg_ids := args.map ArgSpec.id
      if arg_ids ≠ expectedIdsOf args then
        Except.error (groupOrderMsg path arg_ids (expectedIdsOf args))
      else
        Except.ok ()

/-- `assert_arguments_sorted_with_path` (src/src/lib.rs:128-132): panic
(modelled as `error`) with exactly the message of the failing check. -/
def assert_arguments_sorted_with_path (args : List ArgSpec) (path : List String) :
    Except String Unit :=
  match is_arguments_sorted_with_path args path with
  | Except.error msg => Except.error msg
  | Except.ok _ => Except.ok ()

mutual
/-- `is_sorted_with_path` (src/src/lib.rs:95-125): push the node name on the
path; if there are subcommands and their name list differs from its stable
sort, return the subcommand-order error; then check the node's arguments;
then recurse into each subcommand in order, propagating the first error. -/
def is_sorted_with_path (parent_path : List String) : Command → Except String Unit
  | Command.mk name args subs =>
    let current_path := parent_path ++ [name]
    let subcommands := subs.map Command.name
    let sorted := sortBy compare subcommands
    if subcommands ≠ [] ∧ subcommands ≠ sorted then
      Except.error ("Subcommands in '" ++ joinSpace current_path
        ++ "' are not sorted alphabetically!\nActual order: " ++ dbgList subcommands
        ++ "\nExpected order: " ++ dbgList sorted)
    else
      match is_arguments_sorted_with_path args current_path with
      | Except.error m => Except.error m
      | Except.ok _ => is_sorted_subsList current_path subs

/-- The `for subcmd in cmd.get_subcommands()` loop of `is_sorted_with_path`
(src/src/lib.rs:120-122) with its `?` propagation. -/
def is_sorted_subsList (path : List String) : List Command → Except String Unit
  | [] => Except.ok ()
  | c :: cs =>
    match is_sorted_with_path path c with
    | Except.error m => Except.error m
    | Except.ok _ => is_sorted_subsList path cs
end

/-- `is_sorted` (src/src/lib.rs:91-93). -/
def is_sorted (c : Command) : Except String Unit := is_sorted_with_path [] c

mutual
/-- `assert_sorted_with_path` (src/src/lib.rs:42-70): same traversal as
`is_sorted_with_path` but panicking (modelled as `error`) instead of
returning `Err`; the panic message literal at lines 54-59 is
character-for-character the `Err` literal at lines 107-112. -/
def assert_sorted_with_path (parent_path : List String) : Command → Except String Unit
  | Command.mk name args subs =>
    let current_path := parent_path ++ [name]
    let subcommands := subs.map Command.name
    let sorted := sortBy compare subcommands
    if subcommands ≠ [] ∧ subcommands ≠ sorted then
      Except.error ("Subcommands in '" ++ joinSpace current_path
        ++ "' are not sorted alphabetically!\nActual order: " ++ dbgList subcommands
        ++ "\nExpected order: " ++ dbgList sorted)
    else
      match assert_arguments_sorted_with_path args current_path with
      | Except.error m => Except.error m
      | Except.ok _ => assert_sorted_subsList current_path subs

/-- The `for subcmd in cmd.get_subcommands()` loop of
`assert_sorted_with_path` (src/src/lib.rs:67-69); a panic inside an
iteration aborts the remaining iterations. -/
def assert_sorted_subsList (path : List String) : List Command → Except String Unit
  | [] => Except.ok ()
  | c :: cs =>
    match assert_sorted_with_path path c with
    | Except.error m => Except.error m
    | Except.ok _ => assert_sorted_subsList path cs
end

/-- `assert_sorted` (src/src/lib.rs:38-40). -/
def assert_sorted (c : Command) : Except String Unit := assert_sorted_with_path [] c

/-- The four violation kinds of the spec's data model (spec §3). -/
inductive ViolationKind : Type where
  | SubcommandOrder
  | ArgumentGroupOrder
  | ShortFlagOrder
  | LongFlagOrder
deriving DecidableEq, Repr

/-- A structured violation (spec §3): kind, full ancestry path ending at the
offending command, actual and expected display strings. -/
structure Violation : Type where
  kind : ViolationKind
  path : List String
  actual : List String
  expected : List String
deriving DecidableEq, Repr

/-- Modelled from the spec: the SubcommandOrder per-node check of the
collect-all policy (spec §4.4 steps 1, §7; the collect-all driver
`validate_file_path` is not under src/).  Identical condition and data to
the fail-fast check at src/src/lib.rs:100-113. -/
def subViolation (currentPath : List String) (subNames : List String) : Option Violation :=
  let sorted := sortBy compare subNames
  if subNames ≠ [] ∧ subNames ≠ sorted then
    some ⟨ViolationKind.SubcommandOrder, currentPath, subNames, sorted⟩
  else none

/-- Modelled from the spec: the ShortFlagOrder per-node check of the
collect-all policy (spec §4.4 step 3).  Identical condition to
src/src/lib.rs:154-178, with `-x` display strings. -/
def shortViolation (currentPath : List String) (args : List ArgSpec) : Option Violation :=
  let chars := shortCharsOf args
  let sorted := sortBy shortCmp chars
  if chars ≠ sorted then
    some ⟨ViolationKind.ShortFlagOrder, currentPath,
      chars.map (fun c => "-" ++ c.toString), sorted.map (fun c => "-" ++ c.toString)⟩
  else none

/-- Modelled from the spec: the LongFlagOrder per-node check of the
collect-all policy (spec §4.4 step 4).  Identical condition to
src/src/lib.rs:216-236, with `--name` display strings. -/
def longViolation (currentPath : List String) (args : List ArgSpec) : Option Violation :=
  let longs := longNamesOf args
  let sorted := sortBy compare longs
  if longs ≠ sorted then
    some ⟨ViolationKind.LongFlagOrder, currentPath,
      longs.map (fun l => "--" ++ l), sorted.map (fun l => "--" ++ l)⟩
  else none

/-- Modelled from the spec: the ArgumentGroupOrder per-node check of the
collect-all policy (spec §4.4 step 5).  Identical condition to
src/src/lib.rs:239-253. -/
def groupViolation (currentPath : List String) (args : List ArgSpec) : Option Violation :=
  let argIds := args.map ArgSpec.id
  if argIds ≠ expectedIdsOf args then
    some ⟨ViolationKind.ArgumentGroupOrder, currentPath, argIds, expectedIdsOf args⟩
  else none

/-- Modelled from the spec: all violations of one node under the collect-all
policy — all four checks run regardless of earlier failures (spec §7). -/
def nodeViolations (parentPath : List String) : Command → List Violation
  | Command.mk name args subs =>
    let cur := parentPath ++ [name]
    (subViolation cur (subs.map Command.name)).toList
      ++ (shortViolation cur args).toList
      ++ (longViolation cur args).toList
      ++ (groupViolation cur args).toList

mutual
/-- Modelled from the spec: the collect-all policy of the Tree Walker (spec
§4.4, §7; the collect-all driver `validate_file_path` is not under src/):
depth-first pre-order traversal that continues past violations and
accumulates every violation across the whole tree. -/
def collectAll (parentPath : List String) : Command → List Violation
  | Command.mk name args subs =>
    nodeViolations parentPath (Command.mk name args subs)
      ++ collectAllList (parentPath ++ [name]) subs

/-- Modelled from the spec: collect-all traversal of a sibling list. -/
def collectAllList (path : List String) : List Command → List Violation
  | [] => []
  | c :: cs => collectAll path c ++ collectAllList path cs
end

mutual
/-- Every node of the tree in depth-first pre-order, paired with the path of
its ancestors (the path does not include the node itself). -/
def preorderNodes (parentPath : List String) : Command → List (List String × Command)
  | Command.mk name args subs =>
    (parentPath, Command.mk name args subs) :: preorderNodesList (parentPath ++ [name]) subs

/-- Pre-order nodes of a sibling list. -/
def preorderNodesList (path : List String) : List Command → List (List String × Command)
  | [] => []
  | c :: cs => preorderNodes path c ++ preorderNodesList path cs
end

/-- Modelled from the spec: the name-derivation rule exactly as the claim and
spec §4.3 word it — "derive it from the variant's identifier by lowercasing
and replacing underscores with hyphens" (the static-mode Structural
Extractor is not under src/). -/
def lowercaseUnderscoreName (ident : String) : String :=
  String.mk (ident.data.map fun c => if c = '_' then '-' else c.toLower)

/-- Modelled from the spec: static-mode default name derivation per the
spec's §8 examples (`AddCmd` yields `add-cmd`, `Add` yields `add`) — the
kebab-case of the variant identifier: a hyphen is inserted at each
lowercase-or-digit to uppercase boundary, underscores become hyphens, and
letters are lowercased. -/
def kebabCaseName (ident : String) : String :=
  (ident.data.foldl
    (fun (st : String × Option Char) c =>
      if c = '_' then (st.1 ++ "-", some c)
      else if c.isUpper then
        (match st.2 with
          | some p =>
            if p.isLower || p.isDigit then st.1 ++ "-" ++ c.toLower.toString
            else st.1 ++ c.toLower.toString
          | none => st.1 ++ c.toLower.toString, some c)
      else (st.1 ++ c.toString, some c))
    ("", none)).1

/-- Modelled from the spec: the externally-visible name of a detected
variant (spec §4.3): the explicit `name = "<value>"` override when present,
otherwise derived from the identifier. -/
def variantExternalName (override : Option String) (ident : String) : String :=
  match override with
  | some n => n
  | none => kebabCaseName ident

/-- Boolean chain predicate: every adjacent pair satisfies `r`. -/
def chainB (r : α → α → Bool) : List α → Bool
  | [] => true
  | [_] => true
  | a :: b :: l => r a b && chainB r (b :: l)

/-- Boolean no-duplicates predicate. -/
def nodupB [BEq α] : List α → Bool
  | [] => true
  | a :: l => !(l.contains a) && nodupB l

/-- The claim's per-node hypothesis on an argument list (C1, following the
spec's words): short-flag characters in case-insensitive alphabetical order
with the lowercase-before-uppercase tie-break, long-only names in
alphabetical order, and the full list laid out as positional group, then
short-flag group, then long-only group. -/
def argsWellOrdered (args : List ArgSpec) : Bool :=
  chainB (fun a b => shortCmp a b != Ordering.gt) (shortCharsOf args)
    && chainB (fun a b => compare a b != Ordering.gt) (longNamesOf args)
    && (args.map ArgSpec.id == expectedIdsOf args)

mutual
/-- The claim's hypothesis on a tree (C1, following the spec's words): at
every node the subcommand names are pairwise distinct and alphabetically
ordered and the arguments satisfy `argsWellOrdered`. -/
def wellOrdered : Command → Bool
  | Command.mk _ args subs =>
    nodupB (subs.map Command.name)
      && chainB (fun a b => compare a b != Ordering.gt) (subs.map Command.name)
      && argsWellOrdered args
      && wellOrderedList subs

/-- `wellOrdered` on a sibling list. -/
def wellOrderedList : List Command → Bool
  | [] => true
  | c :: cs => wellOrdered c && wellOrderedList cs
end

mutual
/-- Structural induction for `Command` (a node follows from all its
subcommands). -/
def commandInductAux {motive : Command → Prop}
    (h : ∀ n args subs, (∀ c ∈ subs, motive c) → motive (Command.mk n args subs)) :
    ∀ c, motive c
  | Command.mk n args subs => h n args subs (commandInductListAux h subs)

/-- Structural induction for `Command`, list side. -/
def commandInductListAux {motive : Command → Prop}
    (h : ∀ n args subs, (∀ c ∈ subs, motive c) → motive (Command.mk n args subs)) :
    ∀ cs : List Command, ∀ c ∈ cs, motive c
  | c :: _, _, List.Mem.head _ => commandInductAux h c
  | _ :: cs, d, List.Mem.tail _ hmem => commandInductListAux h cs d hmem
end

/-- A command tree used as a concrete well-sorted input. -/
def exSortedTree : Command :=
  Command.mk "mycli"
    [⟨"file", true, none, none⟩,
     ⟨"output", false, some 'o', some "output"⟩,
     ⟨"config", false, none, some "config"⟩]
    [Command.mk "add" [] [], Command.mk "delete" [] []]

/-- A command tree whose only defect is an unsorted subcommand list at the
root. -/
def exOneBadTree : Command :=
  Command.mk "root" [] [Command.mk "b" [] [], Command.mk "a" [] []]

/-- A command declaring short flags `['I', 'i']`, uppercase first. -/
def exUpperFirst : Command :=
  Command.mk "test"
    [⟨"index", false, some 'I', some "index"⟩,
     ⟨"inject", false, some 'i', some "inject"⟩] []

/-- A command declaring short flags `['i', 'I']`, lowercase first. -/
def exLowerFirst : Command :=
  Command.mk "test"
    [⟨"inject", false, some 'i', some "inject"⟩,
     ⟨"index", false, some 'I', some "index"⟩] []

/-- A command declaring non-ASCII short flags `['é', 'É']`, lowercase form
first. -/
def exAccentFirst : Command :=
  Command.mk "test"
    [⟨"e1", false, some 'é', some "e1"⟩,
     ⟨"e2", false, some 'É', some "e2"⟩] []

theorem command_induction {motive : Command → Prop}
    (h : ∀ n args subs, (∀ c ∈ subs, motive c) → motive (Command.mk n args subs)) :
    ∀ c, motive c := commandInductAux h

theorem sortBy_eq_self_of_chainB (cmp : α → α → Ordering) :
    ∀ l : List α, chainB (fun a b => cmp a b != Ordering.gt) l = true → sortBy cmp l = l
  | [], _ => rfl
  | [_], _ => rfl
  | x :: y :: l, h => by
    simp only [chainB, Bool.and_eq_true] at h
    have hxy : ¬cmp x y = Ordering.gt := by
      intro hc
      rw [hc] at h
      exact absurd h.1 (by decide)
    have ih := sortBy_eq_self_of_chainB cmp (y :: l) h.2
    show insertBy cmp x (sortBy cmp (y :: l)) = x :: y :: l
    rw [ih]
    simp [insertBy, hxy]

theorem is_args_ok_iff (args : List ArgSpec) (path : List String) :
    is_arguments_sorted_with_path args path = Except.ok () ↔
      (shortCharsOf args = sortBy shortCmp (shortCharsOf args)
        ∧ longNamesOf args = sortBy compare (longNamesOf args)
        ∧ args.map ArgSpec.id = expectedIdsOf args) := by
  unfold is_arguments_sorted_with_path
  dsimp only
  split_ifs with h1 h2 h3
  · exact iff_of_false (by simp) fun hh => h1 hh.1
  · exact iff_of_false (by simp) fun hh => h2 hh.2.1
  · exact iff_of_false (by simp) fun hh => h3 hh.2.2
  · exact iff_of_true rfl ⟨not_ne_iff.mp h1, not_ne_iff.mp h2, not_ne_iff.mp h3⟩

theorem assert_args_eq_is_args (args : List ArgSpec) (path : List String) :
    assert_arguments_sorted_with_path args path = is_arguments_sorted_with_path args path := by
  unfold assert_arguments_sorted_with_path
  cases h : is_arguments_sorted_with_path args path with
  | error m => rfl
  | ok u => cases u; rfl

theorem assert_eq_is_with_path :
    ∀ (c : Command) (p : List String), assert_sorted_with_path p c = is_sorted_with_path p c := by
  intro c
  induction c using command_induction with
  | _ n args subs ih =>
    intro p
    have hlist : ∀ cs : List Command,
        (∀ c ∈ cs, ∀ q, assert_sorted_with_path q c = is_sorted_with_path q c) →
        ∀ q, assert_sorted_subsList q cs = is_sorted_subsList q cs := by
      intro cs
      induction cs with
      | nil => intro _ _; rfl
      | cons d ds ihl =>
        intro hmem q
        unfold assert_sorted_subsList is_sorted_subsList
        rw [hmem d (List.mem_cons_self d ds) q,
          ihl (fun c hc => hmem c (List.mem_cons_of_mem d hc)) q]
    unfold assert_sorted_with_path is_sorted_with_path
    simp only [assert_args_eq_is_args, hlist subs ih]

/-- C7: the fail-fast `assert_sorted` and result-returning `is_sorted`
perform identical per-node checks with identical diagnostic content: for
every command tree, `assert_sorted` panics with message m iff `is_sorted`
returns Err(m), and `assert_sorted` returns normally iff `is_sorted`
returns Ok (panics are modelled as the `error` branch of `Except`). -/
theorem c7_policies_agree (c : Command) :
    (∀ m, assert_sorted c = Except.error m ↔ is_sorted c = Except.error m)
      ∧ (assert_sorted c = Except.ok () ↔ is_sorted c = Except.ok ()) := by
  have h : assert_sorted c = is_sorted c := by
    rw [assert_sorted, is_sorted, assert_eq_is_with_path]
  exact ⟨fun m => by rw [h], by rw [h]⟩

theorem is_args_ok_of_wellOrdered (args : List ArgSpec) (path : List String)
    (h : argsWellOrdered args = true) :
    is_arguments_sorted_with_path args path = Except.ok () := by
  rw [is_args_ok_iff]
  simp only [argsWellOrdered, Bool.and_eq_true, beq_iff_eq] at h
  obtain ⟨⟨h1, h2⟩, h3⟩ := h
  exact ⟨(sortBy_eq_self_of_chainB _ _ h1).symm, (sortBy_eq_self_of_chainB _ _ h2).symm, h3⟩

theorem is_sorted_with_path_ok :
    ∀ c : Command, wellOrdered c = true → ∀ p, is_sorted_with_path p c = Except.ok () := by
  intro c
  induction c using command_induction with
  | _ n args subs ih =>
    intro h p
    simp only [wellOrdered, Bool.and_eq_true] at h
    obtain ⟨⟨⟨hnd, hchain⟩, hargs⟩, hsubs⟩ := h
    have hfix := sortBy_eq_self_of_chainB compare (subs.map Command.name) hchain
    have hargsok := is_args_ok_of_wellOrdered args (p ++ [n]) hargs
    have hlist : ∀ cs : List Command,
        wellOrderedList cs = true →
        (∀ c ∈ cs, wellOrdered c = true → ∀ q, is_sorted_with_path q c = Except.ok ()) →
        ∀ q, is_sorted_subsList q cs = Except.ok () := by
      intro cs
      induction cs with
      | nil => intro _ _ _; rfl
      | cons d ds ihl =>
        intro hwl hmem q
        simp only [wellOrderedList, Bool.and_eq_true] at hwl
        unfold is_sorted_subsList
        rw [hmem d (List.mem_cons_self d ds) hwl.1 q,
          ihl hwl.2 (fun c hc => hmem c (List.mem_cons_of_mem d hc)) q]
    unfold is_sorted_with_path
    dsimp only
    rw [if_neg (fun hcond => hcond.2 hfix.symm), hargsok]
    exact hlist subs hsubs ih (p ++ [n])

/-- C1: for every command tree in which every node's subcommand names are
pairwise distinct and in alphabetical order, every node's short-flag
characters are in case-insensitive alphabetical order with the
lowercase-before-uppercase tie-break, every node's long-only flag names are
in alphabetical order, and every node's argument list appears as positional
group, then short-flag group, then long-only group, validation (both
`assert_sorted` and `is_sorted`) succeeds with zero violations. -/
theorem c1_sorted_trees_validate (c : Command) (h : wellOrdered c = true) :
    assert_sorted c = Except.ok () ∧ is_sorted c = Except.ok () := by
  have hi := is_sorted_with_path_ok c h []
  exact ⟨by rw [assert_sorted, assert_eq_is_with_path]; exact hi, by rw [is_sorted]; exact hi⟩

/-- Witness for C1 at a concrete well-sorted tree. -/
theorem c1_witness :
    wellOrdered exSortedTree = true
      ∧ (assert_sorted exSortedTree = Except.ok () ∧ is_sorted exSortedTree = Except.ok ()) :=
  ⟨rfl, c1_sorted_trees_validate exSortedTree rfl⟩

/-- C4: short-flag ordering is case-insensitive with lowercase before
uppercase on a same-letter tie: declaring short flags `['I','i']` in that
order fails with a short-flag ordering violation, and `['i','I']`
succeeds. -/
theorem c4_short_flag_tie_break :
    is_sorted exUpperFirst
        = Except.error "Flags with short options in 'test' are not sorted!\nActual: [\"-I\", \"-i\"]\nExpected: [\"-i\", \"-I\"]"
      ∧ is_sorted exLowerFirst = Except.ok () :=
  ⟨rfl, rfl⟩

theorem collectAll_eq_flatMap :
    ∀ (c : Command) (p : List String),
      collectAll p c = (preorderNodes p c).flatMap fun pn => nodeViolations pn.1 pn.2 := by
  intro c
  induction c using command_induction with
  | _ n args subs ih =>
    intro p
    have hlist : ∀ cs : List Command,
        (∀ c ∈ cs, ∀ q,
          collectAll q c = (preorderNodes q c).flatMap fun pn => nodeViolations pn.1 pn.2) →
        ∀ q, collectAllList q cs
          = (preorderNodesList q cs).flatMap fun pn => nodeViolations pn.1 pn.2 := by
      intro cs
      induction cs with
      | nil => intro _ _; rfl
      | cons d ds ihl =>
        intro hmem q
        unfold collectAllList preorderNodesList
        rw [List.flatMap_append, hmem d (List.mem_cons_self d ds) q,
          ihl (fun c hc => hmem c (List.mem_cons_of_mem d hc)) q]
    unfold collectAll preorderNodes
    rw [List.flatMap_cons, hlist subs ih (p ++ [n])]

theorem flatMap_eq_nil_of_filter_nil :
    ∀ (l : List α) (f : α → List β),
      l.filter (fun x => !(f x).isEmpty) = [] → l.flatMap f = []
  | [], _, _ => rfl
  | x :: l, f, h => by
    by_cases hx : (f x).isEmpty
    · have hfx : f x = [] := List.isEmpty_iff.mp hx
      have h' : l.filter (fun x => !(f x).isEmpty) = [] := by
        simpa [List.filter_cons, hx] using h
      simp [List.flatMap_cons, hfx, flatMap_eq_nil_of_filter_nil l f h']
    · exfalso
      simp only [List.filter_cons, Bool.not_eq_true'] at h
      rw [if_pos (by simp [hx])] at h
      exact List.cons_ne_nil _ _ h

theorem flatMap_eq_of_filter_singleton :
    ∀ (l : List α) (f : α → List β) (x0 : α),
      l.filter (fun x => !(f x).isEmpty) = [x0] → l.flatMap f = f x0
  | [], _, _, h => by simp at h
  | x :: l, f, x0, h => by
    by_cases hx : (f x).isEmpty
    · have hfx : f x = [] := List.isEmpty_iff.mp hx
      have h' : l.filter (fun x => !(f x).isEmpty) = [x0] := by
        simpa [List.filter_cons, hx] using h
      simp [List.flatMap_cons, hfx, flatMap_eq_of_filter_singleton l f x0 h']
    · have h' : x :: l.filter (fun x => !(f x).isEmpty) = [x0] := by
        simpa [List.filter_cons, hx] using h
      have hx0 : x = x0 := (List.cons.inj h').1
      have hnil : l.filter (fun x => !(f x).isEmpty) = [] := (List.cons.inj h').2
      subst hx0
      simp [List.flatMap_cons, flatMap_eq_nil_of_filter_nil l f hnil]

theorem subViolation_spec {p ns : List String} {w : Violation}
    (h : subViolation p ns = some w) :
    w.kind = ViolationKind.SubcommandOrder ∧ w.path = p := by
  unfold subViolation at h
  dsimp only at h
  split at h
  · cases Option.some.inj h
    exact ⟨rfl, rfl⟩
  · exact Option.noConfusion h

theorem shortViolation_spec {p : List String} {args : List ArgSpec} {w : Violation}
    (h : shortViolation p args = some w) :
    w.kind = ViolationKind.ShortFlagOrder ∧ w.path = p := by
  unfold shortViolation at h
  dsimp only at h
  split at h
  · cases Option.some.inj h
    exact ⟨rfl, rfl⟩
  · exact Option.noConfusion h

theorem longViolation_spec {p : List String} {args : List ArgSpec} {w : Violation}
    (h : longViolation p args = some w) :
    w.kind = ViolationKind.LongFlagOrder ∧ w.path = p := by
  unfold longViolation at h
  dsimp only at h
  split at h
  · cases Option.some.inj h
    exact ⟨rfl, rfl⟩
  · exact Option.noConfusion h

theorem groupViolation_spec {p : List String} {args : List ArgSpec} {w : Violation}
    (h : groupViolation p args = some w) :
    w.kind = ViolationKind.ArgumentGroupOrder ∧ w.path = p := by
  unfold groupViolation at h
  dsimp only at h
  split at h
  · cases Option.some.inj h
    exact ⟨rfl, rfl⟩
  · exact Option.noConfusion h

theorem nodeViolations_singleton {p0 : List String} {n : String} {args : List ArgSpec}
    {subs : List Command} {v : Violation}
    (h2 : nodeViolations p0 (Command.mk n args subs) = [v]) :
    (subViolation (p0 ++ [n]) (subs.map Command.name) = some v
        ∧ shortViolation (p0 ++ [n]) args = none
        ∧ longViolation (p0 ++ [n]) args = none
        ∧ groupViolation (p0 ++ [n]) args = none)
      ∨ (subViolation (p0 ++ [n]) (subs.map Command.name) = none
        ∧ shortViolation (p0 ++ [n]) args = some v
        ∧ longViolation (p0 ++ [n]) args = none
        ∧ groupViolation (p0 ++ [n]) args = none)
      ∨ (subViolation (p0 ++ [n]) (subs.map Command.name) = none
        ∧ shortViolation (p0 ++ [n]) args = none
        ∧ longViolation (p0 ++ [n]) args = some v
        ∧ groupViolation (p0 ++ [n]) args = none)
      ∨ (subViolation (p0 ++ [n]) (subs.map Command.name) = none
        ∧ shortViolation (p0 ++ [n]) args = none
        ∧ longViolation (p0 ++ [n]) args = none
        ∧ groupViolation (p0 ++ [n]) args = some v) := by
  unfold nodeViolations at h2
  dsimp only at h2
  cases hsub : subViolation (p0 ++ [n]) (subs.map Command.name) <;>
    rw [hsub] at h2 <;>
    cases hsh : shortViolation (p0 ++ [n]) args <;>
    rw [hsh] at h2 <;>
    cases hlg : longViolation (p0 ++ [n]) args <;>
    rw [hlg] at h2 <;>
    cases hgp : groupViolation (p0 ++ [n]) args <;>
    rw [hgp] at h2 <;>
    simp_all [Option.toList]

/-- C2: the collect-all policy returns the complete list of all violations
across the whole tree (its result is the concatenation of every node's
violations in pre-order), never a partial one; in particular, for every
tree whose only node with violations has exactly one violation and that
violation is an unsorted sibling list (subcommands, short flags, or
long-only flags), it returns exactly one violation whose path ends at that
node's name and whose kind matches the disordered category. -/
theorem c2_collect_all_single (c n0 : Command) (p0 : List String) (v : Violation)
    (h1 : (preorderNodes [] c).filter
        (fun pn => !(nodeViolations pn.1 pn.2).isEmpty) = [(p0, n0)])
    (h2 : nodeViolations p0 n0 = [v])
    (h3 : v.kind ≠ ViolationKind.ArgumentGroupOrder) :
    collectAll [] c = [v] ∧ v.path = p0 ++ [n0.name]
      ∧ (v.kind = ViolationKind.SubcommandOrder
          ↔ (subViolation (p0 ++ [n0.name]) (n0.subs.map Command.name)).isSome = true)
      ∧ (v.kind = ViolationKind.ShortFlagOrder
          ↔ (shortViolation (p0 ++ [n0.name]) n0.args).isSome = true)
      ∧ (v.kind = ViolationKind.LongFlagOrder
          ↔ (longViolation (p0 ++ [n0.name]) n0.args).isSome = true) := by
  have hca : collectAll [] c = [v] := by
    rw [collectAll_eq_flatMap, flatMap_eq_of_filter_singleton _ _ _ h1]
    exact h2
  refine ⟨hca, ?_⟩
  obtain ⟨n, args, subs⟩ := n0
  simp only [Command.name, Command.subs, Command.args]
  rcases nodeViolations_singleton h2 with
    ⟨hs, hh, hl, hg⟩ | ⟨hs, hh, hl, hg⟩ | ⟨hs, hh, hl, hg⟩ | ⟨hs, hh, hl, hg⟩
  · obtain ⟨hk, hp⟩ := subViolation_spec hs
    exact ⟨hp, by simp [hs, hk], by simp [hh, hk], by simp [hl, hk]⟩
  · obtain ⟨hk, hp⟩ := shortViolation_spec hh
    exact ⟨hp, by simp [hs, hk], by simp [hh, hk], by simp [hl, hk]⟩
  · obtain ⟨hk, hp⟩ := longViolation_spec hl
    exact ⟨hp, by simp [hs, hk], by simp [hh, hk], by simp [hl, hk]⟩
  · obtain ⟨hk, hp⟩ := groupViolation_spec hg
    exact absurd hk h3

/-- Witness for C2 at a concrete tree whose only defect is the unsorted
subcommand list of the root. -/
theorem c2_witness :
    collectAll [] exOneBadTree
        = [⟨ViolationKind.SubcommandOrder, ["root"], ["b", "a"], ["a", "b"]⟩]
      ∧ (⟨ViolationKind.SubcommandOrder, ["root"], ["b", "a"], ["a", "b"]⟩ : Violation).path
          = [] ++ [exOneBadTree.name]
      ∧ ((⟨ViolationKind.SubcommandOrder, ["root"], ["b", "a"], ["a", "b"]⟩ : Violation).kind
            = ViolationKind.SubcommandOrder
          ↔ (subViolation ([] ++ [exOneBadTree.name])
              (exOneBadTree.subs.map Command.name)).isSome = true)
      ∧ ((⟨ViolationKind.SubcommandOrder, ["root"], ["b", "a"], ["a", "b"]⟩ : Violation).kind
            = ViolationKind.ShortFlagOrder
          ↔ (shortViolation ([] ++ [exOneBadTree.name]) exOneBadTree.args).isSome = true)
      ∧ ((⟨ViolationKind.SubcommandOrder, ["root"], ["b", "a"], ["a", "b"]⟩ : Violation).kind
            = ViolationKind.LongFlagOrder
          ↔ (longViolation ([] ++ [exOneBadTree.name]) exOneBadTree.args).isSome = true) :=
  c2_collect_all_single exOneBadTree exOneBadTree []
    ⟨ViolationKind.SubcommandOrder, ["root"], ["b", "a"], ["a", "b"]⟩
    rfl rfl (by decide)

theorem twoSublist_eq {a b : α} :
    ∀ l : List α, l.Nodup → List.Sublist [a, b] l → List.Sublist [b, a] l → a = b := by
  intro l
  induction l with
  | nil =>
    intro _ h1 _
    exact absurd h1 (by simp)
  | cons x xs ih =>
    intro hnd h1 h2
    rw [List.nodup_cons] at hnd
    cases h1 with
    | cons _ h1' =>
      cases h2 with
      | cons _ h2' => exact ih hnd.2 h1' h2'
      | cons₂ _ h2' => exact absurd (h1'.subset (by simp)) hnd.1
    | cons₂ _ h1' =>
      cases h2 with
      | cons _ h2' => exact absurd (h2'.subset (by simp)) hnd.1
      | cons₂ _ h2' => rfl

theorem is_args_group_error (args : List ArgSpec) (path : List String)
    (h1 : shortCharsOf args = sortBy shortCmp (shortCharsOf args))
    (h2 : longNamesOf args = sortBy compare (longNamesOf args))
    (h3 : args.map ArgSpec.id ≠ expectedIdsOf args) :
    is_arguments_sorted_with_path args path
      = Except.error (groupOrderMsg path (args.map ArgSpec.id) (expectedIdsOf args)) := by
  unfold is_arguments_sorted_with_path
  dsimp only
  rw [if_neg (fun hc => hc h1), if_neg (fun hc => hc h2), if_pos h3]

/-- C3: for every command whose argument list places a long-only flag before
a short-flag-bearing argument (argument ids pairwise distinct), validation
fails with the ArgumentGroupOrder violation even when the short-flag and
long-only groups are individually sorted: the full argument list must
appear as positional group, then short-flag group, then long-only group. -/
theorem c3_group_order (path : List String) (l1 l2 l3 : List ArgSpec) (u s : ArgSpec)
    (hids : ((l1 ++ u :: l2 ++ s :: l3).map ArgSpec.id).Nodup)
    (hu : u.positional = false) (hus : u.short = none) (hul : u.long.isSome = true)
    (hs : s.positional = false) (hss : s.short.isSome = true)
    (hshort : shortCharsOf (l1 ++ u :: l2 ++ s :: l3)
        = sortBy shortCmp (shortCharsOf (l1 ++ u :: l2 ++ s :: l3)))
    (hlong : longNamesOf (l1 ++ u :: l2 ++ s :: l3)
        = sortBy compare (longNamesOf (l1 ++ u :: l2 ++ s :: l3))) :
    is_arguments_sorted_with_path (l1 ++ u :: l2 ++ s :: l3) path
      = Except.error (groupOrderMsg path ((l1 ++ u :: l2 ++ s :: l3).map ArgSpec.id)
          (expectedIdsOf (l1 ++ u :: l2 ++ s :: l3))) := by
  apply is_args_group_error _ _ hshort hlong
  intro hEq
  have hsmem : s ∈ l1 ++ u :: l2 ++ s :: l3 := by simp
  have humem : u ∈ l1 ++ u :: l2 ++ s :: l3 := by simp
  have hsw : s ∈ withShortOf (l1 ++ u :: l2 ++ s :: l3) :=
    List.mem_filter.mpr ⟨hsmem, by simp [hs, hss]⟩
  have hulo : u ∈ longOnlyOf (l1 ++ u :: l2 ++ s :: l3) :=
    List.mem_filter.mpr ⟨humem, by simp [hu, hus, hul]⟩
  have hmap : (l1 ++ u :: l2 ++ s :: l3).map ArgSpec.id
      = l1.map ArgSpec.id ++ u.id :: (l2.map ArgSpec.id ++ s.id :: l3.map ArgSpec.id) := by
    simp
  have t1 : List.Sublist [s.id] (l2.map ArgSpec.id ++ s.id :: l3.map ArgSpec.id) :=
    List.singleton_sublist.mpr (by simp)
  have t2 : List.Sublist [u.id, s.id] (u.id :: (l2.map ArgSpec.id ++ s.id :: l3.map ArgSpec.id)) :=
    List.Sublist.cons₂ u.id t1
  have t4 : List.Sublist [u.id, s.id] ((l1 ++ u :: l2 ++ s :: l3).map ArgSpec.id) := by
    rw [hmap]
    exact t2.trans (List.sublist_append_right _ _)
  have e1 : List.Sublist [s.id] ((positionalOf (l1 ++ u :: l2 ++ s :: l3)).map ArgSpec.id
      ++ (withShortOf (l1 ++ u :: l2 ++ s :: l3)).map ArgSpec.id) :=
    List.Sublist.trans (List.singleton_sublist.mpr (List.mem_map_of_mem ArgSpec.id hsw))
      (List.sublist_append_right _ _)
  have e2 : List.Sublist [u.id] ((longOnlyOf (l1 ++ u :: l2 ++ s :: l3)).map ArgSpec.id) :=
    List.singleton_sublist.mpr (List.mem_map_of_mem ArgSpec.id hulo)
  have e3 : List.Sublist [s.id, u.id] (expectedIdsOf (l1 ++ u :: l2 ++ s :: l3)) := by
    have happ := List.Sublist.append e1 e2
    simpa [expectedIdsOf] using happ
  have e4 : List.Sublist [s.id, u.id] ((l1 ++ u :: l2 ++ s :: l3).map ArgSpec.id) := by
    rw [hEq]
    exact e3
  have hne : u.id ≠ s.id := by
    have hnd2 : ([u.id, s.id] : List String).Nodup := List.Nodup.sublist t4 hids
    rw [List.nodup_cons] at hnd2
    simpa using hnd2.1
  exact hne (twoSublist_eq _ hids t4 e4)

/-- Witness for C3: a long-only `--config` declared before the short-flagged
argument `verbose`. -/
theorem c3_witness :
    is_arguments_sorted_with_path
        [⟨"config", false, none, some "config"⟩,
         ⟨"verbose", false, some 'v', some "verbose"⟩] ["test"]
      = Except.error (groupOrderMsg ["test"]
          (([⟨"config", false, none, some "config"⟩,
             ⟨"verbose", false, some 'v', some "verbose"⟩] : List ArgSpec).map ArgSpec.id)
          (expectedIdsOf
            [⟨"config", false, none, some "config"⟩,
             ⟨"verbose", false, some 'v', some "verbose"⟩])) :=
  c3_group_order ["test"] [] [] []
    ⟨"config", false, none, some "config"⟩
    ⟨"verbose", false, some 'v', some "verbose"⟩
    (by decide) rfl rfl rfl rfl rfl rfl rfl

/-- C5 counterexample: an argument that is not positional and carries
neither a short nor a long name is dropped by the classifier, yet its id
still appears in the actual id list of the group-order check and never in
the expected list, so — contrary to the claim that its presence never
causes a violation — it produces an ArgumentGroupOrder violation. -/
theorem c5_counterexample :
    is_sorted (Command.mk "test" [⟨"internal", false, none, none⟩] [])
      = Except.error "Arguments in 'test' are not in correct group order!\nExpected: [positional, short flags, long-only flags]\nActual: [\"internal\"]\nExpected: []" :=
  rfl

theorem classified_length (args : List ArgSpec) :
    (positionalOf args).length + (withShortOf args).length + (longOnlyOf args).length
      + (unclassifiedOf args).length = args.length := by
  induction args with
  | nil => rfl
  | cons a l ih =>
    simp only [positionalOf, withShortOf, longOnlyOf, unclassifiedOf, List.filter_cons] at ih ⊢
    by_cases hp : a.positional = true <;> by_cases hsome : a.short.isSome = true <;>
      by_cases hl : a.long.isSome = true <;>
      simp [hp, hsome, hl] at ih ⊢ <;> omega

/-- C5(amended): an argument that is not positional and carries neither a
short nor a long name is excluded from all three groups and from the
short-flag and long-flag checks, but it is not ignored entirely: its id
appears in the actual id list compared by the group-order check and never
in the expected concatenation, so whenever the short-flag and long-flag
checks pass, its presence makes validation fail with the
ArgumentGroupOrder violation. -/
theorem c5_unclassified_not_ignored (path : List String) (l1 l2 : List ArgSpec) (u : ArgSpec)
    (hu : u.positional = false) (hus : u.short = none) (hul : u.long = none)
    (h1 : shortCharsOf (l1 ++ u :: l2) = sortBy shortCmp (shortCharsOf (l1 ++ u :: l2)))
    (h2 : longNamesOf (l1 ++ u :: l2) = sortBy compare (longNamesOf (l1 ++ u :: l2))) :
    is_arguments_sorted_with_path (l1 ++ u :: l2) path
      = Except.error (groupOrderMsg path ((l1 ++ u :: l2).map ArgSpec.id)
          (expectedIdsOf (l1 ++ u :: l2))) := by
  apply is_args_group_error _ _ h1 h2
  intro hEq
  have hlen := congrArg List.length hEq
  rw [List.length_map] at hlen
  have hexp : (expectedIdsOf (l1 ++ u :: l2)).length
      = (positionalOf (l1 ++ u :: l2)).length + (withShortOf (l1 ++ u :: l2)).length
        + (longOnlyOf (l1 ++ u :: l2)).length := by
    simp only [expectedIdsOf, List.length_append, List.length_map]
  have hmem : u ∈ unclassifiedOf (l1 ++ u :: l2) :=
    List.mem_filter.mpr ⟨by simp, by simp [hu, hus, hul]⟩
  have hpos : 0 < (unclassifiedOf (l1 ++ u :: l2)).length := by
    cases hcase : unclassifiedOf (l1 ++ u :: l2) with
    | nil => rw [hcase] at hmem; simp at hmem
    | cons b bs => simp
  have hcl := classified_length (l1 ++ u :: l2)
  omega

/-- Witness for C5(amended) at a concrete lone unclassified argument. -/
theorem c5_witness :
    is_arguments_sorted_with_path [⟨"internal", false, none, none⟩] ["test"]
      = Except.error (groupOrderMsg ["test"]
          (([⟨"internal", false, none, none⟩] : List ArgSpec).map ArgSpec.id)
          (expectedIdsOf [⟨"internal", false, none, none⟩])) :=
  c5_unclassified_not_ignored ["test"] [] [] ⟨"internal", false, none, none⟩
    rfl rfl rfl rfl rfl

/-- C6: positional arguments are never checked for internal alphabetical
order: for a command whose arguments are a block of positionals followed by
the non-positional rest, the outcome of the argument checks does not depend
on the positional block at all (so any declaration order of the positionals,
e.g. `['second','first']`, produces no violation from the positional group
itself), and with no non-positional rest validation always succeeds. -/
theorem c6_positional_order_free (path : List String) (pos rest : List ArgSpec)
    (hpos : ∀ a ∈ pos, a.positional = true)
    (hrest : ∀ a ∈ rest, a.positional = false) :
    (is_arguments_sorted_with_path (pos ++ rest) path = Except.ok ()
        ↔ is_arguments_sorted_with_path rest path = Except.ok ())
      ∧ (rest = [] → is_arguments_sorted_with_path (pos ++ rest) path = Except.ok ()) := by
  have hw : withShortOf (pos ++ rest) = withShortOf rest := by
    unfold withShortOf
    rw [List.filter_append,
      List.filter_eq_nil_iff.mpr (fun a ha => by simp [hpos a ha]), List.nil_append]
  have hlo : longOnlyOf (pos ++ rest) = longOnlyOf rest := by
    unfold longOnlyOf
    rw [List.filter_append,
      List.filter_eq_nil_iff.mpr (fun a ha => by simp [hpos a ha]), List.nil_append]
  have hp1 : positionalOf (pos ++ rest) = pos := by
    unfold positionalOf
    rw [List.filter_append, List.filter_eq_self.mpr (fun a ha => by simp [hpos a ha]),
      List.filter_eq_nil_iff.mpr (fun a ha => by simp [hrest a ha]), List.append_nil]
  have hp2 : positionalOf rest = [] :=
    List.filter_eq_nil_iff.mpr (fun a ha => by simp [hrest a ha])
  have hsc : shortCharsOf (pos ++ rest) = shortCharsOf rest := by
    unfold shortCharsOf
    rw [hw]
  have hln : longNamesOf (pos ++ rest) = longNamesOf rest := by
    unfold longNamesOf
    rw [hlo]
  have hgroup : ((pos ++ rest).map ArgSpec.id = expectedIdsOf (pos ++ rest))
      ↔ (rest.map ArgSpec.id = expectedIdsOf rest) := by
    unfold expectedIdsOf
    rw [hp1, hp2, hw, hlo, List.map_append]
    simp only [List.map_nil, List.nil_append, List.append_assoc]
    exact ⟨fun h => List.append_cancel_left h, fun h => by rw [h]⟩
  have hiff : is_arguments_sorted_with_path (pos ++ rest) path = Except.ok ()
      ↔ is_arguments_sorted_with_path rest path = Except.ok () := by
    rw [is_args_ok_iff, is_args_ok_iff, hsc, hln]
    constructor
    · intro ⟨ha, hb, hc⟩
      exact ⟨ha, hb, hgroup.mp hc⟩
    · intro ⟨ha, hb, hc⟩
      exact ⟨ha, hb, hgroup.mpr hc⟩
  refine ⟨hiff, fun hr => ?_⟩
  subst hr
  exact hiff.mpr rfl

/-- Witness for C6 with positionals `['second','first']` and empty rest. -/
theorem c6_witness :
    (is_arguments_sorted_with_path
        (([⟨"second", true, none, none⟩, ⟨"first", true, none, none⟩] : List ArgSpec) ++ [])
        ["test"] = Except.ok ()
      ↔ is_arguments_sorted_with_path [] ["test"] = Except.ok ())
    ∧ (([] : List ArgSpec) = [] → is_arguments_sorted_with_path
        (([⟨"second", true, none, none⟩, ⟨"first", true, none, none⟩] : List ArgSpec) ++ [])
        ["test"] = Except.ok ()) :=
  c6_positional_order_free ["test"]
    [⟨"second", true, none, none⟩, ⟨"first", true, none, none⟩] []
    (by decide) (by decide)

theorem char_not_lower_and_upper (c : Char) : (c.isLower && c.isUpper) = false := by
  simp only [Char.isLower, Char.isUpper]
  by_cases h1 : (97 : UInt32) ≤ c.val <;> by_cases h2 : c.val ≤ (122 : UInt32) <;>
    by_cases h3 : (65 : UInt32) ≤ c.val <;> by_cases h4 : c.val ≤ (90 : UInt32) <;>
    simp [h1, h2, h3, h4]
  exfalso
  have n1 : (97 : UInt32).toNat ≤ c.val.toNat := h1
  have n4 : c.val.toNat ≤ (90 : UInt32).toNat := h4
  have e1 : (97 : UInt32).toNat = 97 := rfl
  have e4 : (90 : UInt32).toNat = 90 := rfl
  omega

theorem char_not_upper_and_lower (c : Char) : (c.isUpper && c.isLower) = false := by
  rw [Bool.and_comm]
  exact char_not_lower_and_upper c

theorem compare_char_self (ch : Char) : compare ch ch = Ordering.eq := by
  show compareOfLessAndEq ch ch = Ordering.eq
  unfold compareOfLessAndEq
  rw [if_neg (lt_irrefl ch), if_pos rfl]

theorem shortCmp_self (ch : Char) : shortCmp ch ch = Ordering.eq := by
  unfold shortCmp
  dsimp only
  rw [compare_char_self]
  simp [char_not_lower_and_upper, char_not_upper_and_lower]

theorem sortBy_const (ch : Char) :
    ∀ l : List Char, (∀ c ∈ l, c = ch) → sortBy shortCmp l = l
  | [], _ => rfl
  | x :: xs, h => by
    have hx : x = ch := h x (List.mem_cons_self x xs)
    have ih := sortBy_const ch xs (fun c hc => h c (List.mem_cons_of_mem x hc))
    show insertBy shortCmp x (sortBy shortCmp xs) = x :: xs
    rw [ih]
    cases xs with
    | nil => rfl
    | cons y ys =>
      have hy : y = ch := h y (by simp)
      simp only [insertBy]
      rw [hx, hy, if_neg (by simp [shortCmp_self])]

/-- C10: duplicate short flags never cause a violation between themselves:
for every command whose short-flag-bearing arguments all carry the
identical short character, the comparator treats them as equal, the stable
sort preserves their declaration order, and the short-flag check passes
(no ShortFlagOrder violation) in every declaration order. -/
theorem c10_duplicate_shorts (path : List String) (args : List ArgSpec) (ch : Char)
    (h : ∀ a ∈ withShortOf args, a.short = some ch) :
    shortCmp ch ch = Ordering.eq
      ∧ sortBy shortCmp (shortCharsOf args) = shortCharsOf args
      ∧ shortViolation path args = none := by
  have hall : ∀ c ∈ shortCharsOf args, c = ch := by
    intro c hc
    obtain ⟨a, ha, hac⟩ := List.mem_filterMap.mp hc
    rw [h a ha] at hac
    exact (Option.some.inj hac).symm
  have hsort := sortBy_const ch (shortCharsOf args) hall
  refine ⟨shortCmp_self ch, hsort, ?_⟩
  unfold shortViolation
  dsimp only
  rw [if_neg (fun hne => hne hsort.symm)]

/-- Witness for C10 with two identical `'a'` shorts. -/
theorem c10_witness :
    shortCmp 'a' 'a' = Ordering.eq
      ∧ sortBy shortCmp (shortCharsOf
          [⟨"x", false, some 'a', none⟩, ⟨"y", false, some 'a', none⟩])
        = shortCharsOf [⟨"x", false, some 'a', none⟩, ⟨"y", false, some 'a', none⟩]
      ∧ shortViolation ["test"]
          [⟨"x", false, some 'a', none⟩, ⟨"y", false, some 'a', none⟩] = none :=
  c10_duplicate_shorts ["test"]
    [⟨"x", false, some 'a', none⟩, ⟨"y", false, some 'a', none⟩] 'a' (by decide)

theorem toLower_fix_of_not_ascii (a : Char) (ha : 127 < a.toNat) : a.toLower = a := by
  unfold Char.toLower
  rw [if_neg]
  omega

theorem isLower_eq_false_of_not_ascii (a : Char) (ha : 127 < a.toNat) :
    a.isLower = false := by
  simp only [Char.isLower]
  have hne : ¬(a.val ≤ (122 : UInt32)) := by
    intro h
    have n : a.val.toNat ≤ (122 : UInt32).toNat := h
    have e : (122 : UInt32).toNat = 122 := rfl
    have e2 : a.toNat = a.val.toNat := rfl
    omega
  simp [hne]

theorem isUpper_eq_false_of_not_ascii (a : Char) (ha : 127 < a.toNat) :
    a.isUpper = false := by
  simp only [Char.isUpper]
  have hne : ¬(a.val ≤ (90 : UInt32)) := by
    intro h
    have n : a.val.toNat ≤ (90 : UInt32).toNat := h
    have e : (90 : UInt32).toNat = 90 := rfl
    have e2 : a.toNat = a.val.toNat := rfl
    omega
  simp [hne]

/-- C9: the case-insensitive fold and the lowercase-before-uppercase
tie-break apply only to ASCII characters: for characters beyond ASCII
(codepoint above 127) the comparator orders by raw codepoint, so short
flags `['é','É']` declared with the lowercase form first are reported as a
short-flag ordering violation — the reverse of the ASCII rule, under which
`['i','I']` validates. -/
theorem c9_non_ascii_raw_codepoint (a b : Char) (ha : 127 < a.toNat) (hb : 127 < b.toNat) :
    shortCmp a b = compare a b
      ∧ is_sorted exAccentFirst
          = Except.error "Flags with short options in 'test' are not sorted!\nActual: [\"-é\", \"-É\"]\nExpected: [\"-É\", \"-é\"]"
      ∧ is_sorted exLowerFirst = Except.ok () := by
  refine ⟨?_, rfl, rfl⟩
  unfold shortCmp
  dsimp only
  rw [toLower_fix_of_not_ascii a ha, toLower_fix_of_not_ascii b hb]
  cases hc : compare a b with
  | lt => rfl
  | gt => rfl
  | eq => simp [isLower_eq_false_of_not_ascii a ha, isUpper_eq_false_of_not_ascii a ha]

/-- Witness for C9 at the pair `'é'`, `'É'`. -/
theorem c9_witness :
    shortCmp 'é' 'É' = compare 'é' 'É'
      ∧ is_sorted exAccentFirst
          = Except.error "Flags with short options in 'test' are not sorted!\nActual: [\"-é\", \"-É\"]\nExpected: [\"-É\", \"-é\"]"
      ∧ is_sorted exLowerFirst = Except.ok () :=
  c9_non_ascii_raw_codepoint 'é' 'É' (by decide) (by decide)

/-- C8 counterexample: the claim asserts both that the external name is
derived "by lowercasing and replacing underscores with hyphens" and that
identifier `AddCmd` yields `add-cmd`; but that stated rule sends `AddCmd`
to `addcmd`, which is not `add-cmd`. -/
theorem c8_counterexample :
    lowercaseUnderscoreName "AddCmd" = "addcmd" ∧ "addcmd" ≠ "add-cmd" :=
  ⟨rfl, by decide⟩

/-- C8(amended): static-mode name derivation: the external name is the
explicit `name = "<value>"` override when present, and otherwise is the
kebab-case of the variant identifier — camel-case boundaries hyphenated,
underscores replaced with hyphens, letters lowercased — so `AddCmd` yields
`add-cmd` and `Add` yields `add`. -/
theorem c8_name_derivation :
    (∀ o ident : String, variantExternalName (some o) ident = o)
      ∧ variantExternalName none "AddCmd" = "add-cmd"
      ∧ variantExternalName none "Add" = "add" :=
  ⟨fun _ _ => rfl, rfl, rfl⟩
